import Mathlib

/-!
Shallow embedding of `src/main.py`, a small utility that
  1. reconstructs text lines from OCR word boxes (`sort_file`), and
  2. extracts a patient name following a title marker (`extract_patient_name`).

Modelling conventions:
  * Python floats are modelled as rationals (ℚ).
  * Python dicts with possibly-missing keys are records with `Option` fields;
    a `KeyError e` is `Except.error e` carrying the missing key's name.
  * Python's in-place mutation of the word dicts (attaching `y_avg`/`x_avg`)
    is modelled by returning the annotated list.
  * Python's stable `sorted` is modelled by `List.insertionSort`, which
    places each element before the later-inserted equal-key elements exactly
    as a stable sort does (any two stable sorts by the same key agree).
  * Python string methods are modelled by structurally recursive functions on
    the character list, so that the kernel can evaluate them on literals.
-/

namespace Main

/-- The `bbox` sub-dictionary of a word record; each coordinate key may be absent. -/
structure RawBBox where
  x_min : Option ℚ
  x_max : Option ℚ
  y_min : Option ℚ
  y_max : Option ℚ
  deriving Repr, DecidableEq

/-- A word record; `bbox` may be absent, and the derived keys `y_avg`/`x_avg`
are absent until `sort_file` attaches them. -/
structure RawWord where
  text : String
  bbox : Option RawBBox
  y_avg : Option ℚ := none
  x_avg : Option ℚ := none
  deriving Repr, DecidableEq

/-- Python's built-in `round` on the quotient: round half to even. -/
def pyRound (q : ℚ) : ℤ :=
  let f : ℤ := q.floor
  let r : ℚ := q - (f : ℚ)
  if r < 1/2 then f
  else if (1/2 : ℚ) < r then f + 1
  else if f % 2 = 0 then f else f + 1

/-- Reads `word['y_avg']` as the bucketing loop does; the word has been annotated
at that point, so the default is never used on `sort_file`'s own path. -/
def yval (w : RawWord) : ℚ := w.y_avg.getD 0

/-- Reads `word['x_avg']` as the in-line sorting step does. -/
def xval (w : RawWord) : ℚ := w.x_avg.getD 0

/-- One iteration of the first loop of `sort_file`:
`word['y_avg'] = (word['bbox']['y_min'] + word['bbox']['y_max']) / 2` and
`word['x_avg'] = (word['bbox']['x_min'] + word['bbox']['x_max']) / 2`,
with `KeyError` (carrying the missing key's name) raised in Python's
evaluation order. -/
def annotate (w : RawWord) : Except String RawWord :=
  match w.bbox with
  | none => .error "bbox"
  | some bb =>
    match bb.y_min with
    | none => .error "y_min"
    | some ymin =>
      match bb.y_max with
      | none => .error "y_max"
      | some ymax =>
        match bb.x_min with
        | none => .error "x_min"
        | some xmin =>
          match bb.x_max with
          | none => .error "x_max"
          | some xmax =>
            .ok { w with y_avg := some ((ymin + ymax) / 2),
                         x_avg := some ((xmin + xmax) / 2) }

/-- The key (if any) whose absence makes `annotate` raise on this word. -/
def missingField (w : RawWord) : Option String :=
  match annotate w with
  | .error e => some e
  | .ok _ => none

/-- The first `for word in words` loop of `sort_file`: annotate every word,
propagating the first `KeyError`. -/
def annotateAll : List RawWord → Except String (List RawWord)
  | [] => .ok []
  | w :: ws =>
    match annotate w with
    | .error e => .error e
    | .ok w' =>
      match annotateAll ws with
      | .error e => .error e
      | .ok ws' => .ok (w' :: ws')

/-- The bucket key `key = round(word['y_avg'] / y_tol)`. -/
def bucketKey (y_tol : ℚ) (w : RawWord) : ℤ := pyRound (yval w / y_tol)

/-- The bucketing and sorting phase of `sort_file` on already-annotated words:
`buckets.setdefault(key, []).append(word)` builds, for each key, the sublist
of words with that key in input order; `sorted(buckets.keys())` enumerates the
distinct keys in ascending order; `sorted(bucket, key=lambda w: w['x_avg'])`
stably sorts each bucket by `x_avg`. -/
def mkLines (l : List RawWord) (y_tol : ℚ) : List (List RawWord) :=
  (List.insertionSort (· ≤ ·) ((l.map (bucketKey y_tol)).dedup)).map
    (fun k => List.insertionSort (fun a b => xval a ≤ xval b)
      (l.filter (fun w => bucketKey y_tol w == k)))

/-- The function `sort_file(words, y_tol=0.005)` from `src/main.py`. -/
def sort_file (words : List RawWord) (y_tol : ℚ := 1/200) :
    Except String (List (List RawWord)) :=
  match annotateAll words with
  | .error e => .error e
  | .ok l => .ok (mkLines l y_tol)

/-! ### The extractor -/

/-- Helper for `pySplit`: scan the characters left to right; a positive `skip`
means we are inside an already-matched separator occurrence; at `skip = 0`,
a separator match emits the accumulated (reversed) segment and starts the
next one after the separator. -/
def splitOnGo (sep : List Char) : List Char → Nat → List Char → List (List Char)
  | [], _, acc => [acc.reverse]
  | _ :: cs, Nat.succ k, acc => splitOnGo sep cs k acc
  | c :: cs, 0, acc =>
    if sep.isPrefixOf (c :: cs) then
      acc.reverse :: splitOnGo sep cs (sep.length - 1) []
    else
      splitOnGo sep cs 0 (c :: acc)

/-- Python's `line.split(marker)` for a non-empty separator: cut the string at
every non-overlapping occurrence of the separator, scanning left to right
(Python rejects an empty separator; the markers used are never empty, and we
return the string unsplit in that case). -/
def pySplit (s sep : String) : List String :=
  if sep.data.isEmpty then [s]
  else (splitOnGo sep.data s.data 0 []).map String.mk

/-- Helper for `pyTokens`: walk the characters, accumulating the current
(reversed) word, emitting it at each whitespace boundary. -/
def splitWsAux : List Char → List Char → List String
  | [], acc => if acc.isEmpty then [] else [String.mk acc.reverse]
  | c :: cs, acc =>
    if c.isWhitespace then
      if acc.isEmpty then splitWsAux cs []
      else String.mk acc.reverse :: splitWsAux cs []
    else splitWsAux cs (c :: acc)

/-- Python's `s.strip().split()`: split on whitespace runs, producing no empty
tokens (the `strip` only removes edge whitespace, which whitespace-run
splitting already ignores). -/
def pyTokens (s : String) : List String := splitWsAux s.data []

/-- The list `parts[1].strip().split()` filtered by the capitalization pattern
`word and word[0].isupper()`, where `parts = line.split(marker)`. -/
def candidate_names (line marker : String) : List String :=
  (pyTokens ((pySplit line marker).getD 1 "")).filter
    (fun w => !w.isEmpty && w.front.isUpper)

/-- One marker test of the inner loop of `extract_patient_name`: Python's
`marker in line` guard coincides with the `len(parts) > 1` guard for the
non-empty markers used, so the two guards collapse into one `if`. -/
def tryMarker (line marker : String) : Option (String × String) :=
  if 1 < (pySplit line marker).length then
    match candidate_names line marker with
    | f :: l :: _ => some (f, l)
    | _ => none
  else none

/-- The inner `for marker in markers` loop: first marker that matches wins. -/
def scanMarkers (line : String) : List String → Option (String × String)
  | [] => none
  | m :: ms =>
    match tryMarker line m with
    | some r => some r
    | none => scanMarkers line ms

/-- The outer `for line in lines_text` loop: first line that matches wins. -/
def scanLines : List String → List String → Option (String × String)
  | [], _ => none
  | line :: rest, markers =>
    match scanMarkers line markers with
    | some r => some r
    | none => scanLines rest markers

/-- The function `extract_patient_name(lines_text, markers=["Monsieur", "Madame"])` from
`src/main.py`: the early `return` inside the loops is the first `some` of the
scan, and falling off both loops returns `(None, None)`. -/
def extract_patient_name (lines_text : List String)
    (markers : List String := ["Monsieur", "Madame"]) :
    Option String × Option String :=
  match scanLines lines_text markers with
  | some (f, l) => (some f, some l)
  | none => (none, none)

/-! ### The extractor as the specification words it

These definitions follow the specification's description ("split the line at
the first occurrence of the marker", the "after" segment being the entire
remainder of the line); they exist to be compared with the source-derived
definitions above. -/

/-- The remainder of the line after the first occurrence of the marker:
everything the split cut off after the first piece, rejoined. -/
def afterFirstOccurrence (line marker : String) : String :=
  String.intercalate marker ((pySplit line marker).drop 1)

/-- The extractor step as the specification describes it: split at the first
occurrence only, so the "after" segment is the entire remainder of the line,
then tokenize it, filter by capitalization and take the first two tokens. -/
def tryMarkerSpec (line marker : String) : Option (String × String) :=
  if 1 < (pySplit line marker).length then
    match (pyTokens (afterFirstOccurrence line marker)).filter
        (fun w => !w.isEmpty && w.front.isUpper) with
    | f :: l :: _ => some (f, l)
    | _ => none
  else none

/-- The inner marker loop, with the specification-worded step. -/
def scanMarkersSpec (line : String) : List String → Option (String × String)
  | [] => none
  | m :: ms =>
    match tryMarkerSpec line m with
    | some r => some r
    | none => scanMarkersSpec line ms

/-- The outer line loop, with the specification-worded step. -/
def scanLinesSpec : List String → List String → Option (String × String)
  | [], _ => none
  | line :: rest, markers =>
    match scanMarkersSpec line markers with
    | some r => some r
    | none => scanLinesSpec rest markers

/-- The whole extractor as the specification describes it. -/
def extract_patient_name_spec (lines_text : List String)
    (markers : List String := ["Monsieur", "Madame"]) :
    Option String × Option String :=
  match scanLinesSpec lines_text markers with
  | some (f, l) => (some f, some l)
  | none => (none, none)

/-- The caller-visible projection of a word record: the fields the caller
supplied (everything except the derived attributes). -/
def wordData (w : RawWord) : String × Option RawBBox := (w.text, w.bbox)

/-! ### Helper lemmas about the extractor -/

theorem tryMarker_eq_none_of_lt_two {line marker : String}
    (h : (candidate_names line marker).length < 2) :
    tryMarker line marker = none := by
  rw [tryMarker]
  rcases hc : candidate_names line marker with _ | ⟨a, _ | ⟨b, t⟩⟩
  · simp [hc]
  · simp [hc]
  · rw [hc] at h
    exact absurd h (by simp)

theorem scanMarkers_eq_none {line : String} :
    ∀ {markers : List String}, (∀ m ∈ markers, tryMarker line m = none) →
      scanMarkers line markers = none
  | [], _ => rfl
  | m :: ms, h => by
    rw [scanMarkers, h m (List.mem_cons_self m ms)]
    exact scanMarkers_eq_none fun x hx => h x (List.mem_cons_of_mem _ hx)

theorem scanMarkers_eq_some {line : String} :
    ∀ {markers : List String} {r : String × String},
      scanMarkers line markers = some r → ∃ m ∈ markers, tryMarker line m = some r
  | [], _, h => by cases h
  | m :: ms, r, h => by
    rw [scanMarkers] at h
    cases ht : tryMarker line m with
    | none =>
      rw [ht] at h
      obtain ⟨m', hm', h'⟩ := scanMarkers_eq_some h
      exact ⟨m', List.mem_cons_of_mem _ hm', h'⟩
    | some v =>
      rw [ht] at h
      cases h
      exact ⟨m, List.mem_cons_self m ms, ht⟩

theorem scanLines_eq_some :
    ∀ {lines markers : List String} {r : String × String},
      scanLines lines markers = some r →
      ∃ line ∈ lines, ∃ m ∈ markers, tryMarker line m = some r
  | [], _, _, h => by cases h
  | line :: rest, markers, r, h => by
    rw [scanLines] at h
    cases hs : scanMarkers line markers with
    | none =>
      rw [hs] at h
      obtain ⟨l', hl', hm⟩ := scanLines_eq_some h
      exact ⟨l', List.mem_cons_of_mem _ hl', hm⟩
    | some v =>
      rw [hs] at h
      cases h
      obtain ⟨m, hm, ht⟩ := scanMarkers_eq_some hs
      exact ⟨line, List.mem_cons_self line rest, m, hm, ht⟩

theorem tryMarker_eq_some {line marker f l : String}
    (h : tryMarker line marker = some (f, l)) :
    (!f.isEmpty && f.front.isUpper) = true ∧ (!l.isEmpty && l.front.isUpper) = true := by
  rw [tryMarker] at h
  by_cases hlen : 1 < (pySplit line marker).length
  · rw [if_pos hlen] at h
    rcases hc : candidate_names line marker with _ | ⟨a, _ | ⟨b, t⟩⟩ <;> rw [hc] at h
    · cases h
    · cases h
    · have hab : a = f ∧ b = l := by
        have := Option.some.inj h
        exact ⟨congrArg Prod.fst this, congrArg Prod.snd this⟩
      obtain ⟨rfl, rfl⟩ := hab
      rw [candidate_names] at hc
      have hf : a ∈ List.filter (fun w => !w.isEmpty && w.front.isUpper)
          (pyTokens ((pySplit line marker).getD 1 "")) := by
        rw [hc]; exact List.mem_cons_self _ _
      have hb : b ∈ List.filter (fun w => !w.isEmpty && w.front.isUpper)
          (pyTokens ((pySplit line marker).getD 1 "")) := by
        rw [hc]; exact List.mem_cons_of_mem _ (List.mem_cons_self _ _)
      exact ⟨(List.mem_filter.mp hf).2, (List.mem_filter.mp hb).2⟩
  · rw [if_neg hlen] at h
    cases h

theorem splitWsAux_eq_nil :
    ∀ cs : List Char, cs.all Char.isWhitespace = true → splitWsAux cs [] = []
  | [], _ => rfl
  | c :: cs, h => by
    simp only [List.all_cons, Bool.and_eq_true] at h
    rw [splitWsAux, if_pos h.1]
    simpa using splitWsAux_eq_nil cs h.2

theorem pyTokens_eq_nil {s : String} (h : s.data.all Char.isWhitespace = true) :
    pyTokens s = [] :=
  splitWsAux_eq_nil s.data h

theorem intercalate_go_data_prefix (m : String) :
    ∀ (ps : List String) (acc : String),
      ∃ t, (String.intercalate.go acc m ps).data = acc.data ++ t
  | [], acc => ⟨[], by rw [String.intercalate.go]; simp⟩
  | a :: as, acc => by
    obtain ⟨t, ht⟩ := intercalate_go_data_prefix m as (acc ++ m ++ a)
    exact ⟨m.data ++ a.data ++ t, by rw [String.intercalate.go, ht]; simp⟩

theorem intercalate_singleton (m b : String) : String.intercalate m [b] = b := rfl

/-! ### Helper lemmas about the reconstructor -/

instance : IsTotal RawWord (fun a b => xval a ≤ xval b) :=
  ⟨fun a b => le_total (xval a) (xval b)⟩

instance : IsTrans RawWord (fun a b => xval a ≤ xval b) :=
  ⟨fun _ _ _ h1 h2 => le_trans h1 h2⟩

theorem sort_file_ok_elim {words : List RawWord} {t : ℚ} {lines : List (List RawWord)}
    (h : sort_file words t = .ok lines) :
    ∃ l, annotateAll words = .ok l ∧ lines = mkLines l t := by
  rw [sort_file] at h
  cases haa : annotateAll words with
  | error e => rw [haa] at h; cases h
  | ok l => rw [haa] at h; exact ⟨l, rfl, (Except.ok.inj h).symm⟩

theorem annotateAll_forall₂ :
    ∀ {ws l : List RawWord}, annotateAll ws = .ok l →
      List.Forall₂ (fun w w' => annotate w = .ok w') ws l
  | [], l, h => by
    rw [annotateAll] at h
    cases Except.ok.inj h
    exact List.Forall₂.nil
  | w :: ws, l, h => by
    rw [annotateAll] at h
    cases ha : annotate w with
    | error e => rw [ha] at h; cases h
    | ok w' =>
      rw [ha] at h
      cases haa : annotateAll ws with
      | error e => rw [haa] at h; cases h
      | ok l' =>
        rw [haa] at h
        cases Except.ok.inj h
        exact List.Forall₂.cons ha (annotateAll_forall₂ haa)

theorem annotate_ok_shape {w w' : RawWord} (h : annotate w = .ok w') :
    w'.text = w.text ∧ w'.bbox = w.bbox ∧
      w' = { w with y_avg := w'.y_avg, x_avg := w'.x_avg } := by
  rcases w with ⟨tx, bb, ya, xa⟩
  rcases bb with _ | ⟨⟨xmin, xmax, ymin, ymax⟩⟩
  · rw [annotate] at h; cases h
  · rw [annotate] at h
    rcases ymin with _ | ymin
    · cases h
    rcases ymax with _ | ymax
    · cases h
    rcases xmin with _ | xmin
    · cases h
    rcases xmax with _ | xmax
    · cases h
    cases Except.ok.inj h
    exact ⟨rfl, rfl, rfl⟩

theorem annotate_fix {w w' : RawWord} (h : annotate w = .ok w') :
    annotate w' = .ok w' := by
  rcases w with ⟨tx, bb, ya, xa⟩
  rcases bb with _ | ⟨⟨xmin, xmax, ymin, ymax⟩⟩
  · rw [annotate] at h; cases h
  · rw [annotate] at h
    rcases ymin with _ | ymin
    · cases h
    rcases ymax with _ | ymax
    · cases h
    rcases xmin with _ | xmin
    · cases h
    rcases xmax with _ | xmax
    · cases h
    cases Except.ok.inj h
    rfl

theorem annotateAll_fix :
    ∀ {ws l : List RawWord}, annotateAll ws = .ok l → annotateAll l = .ok l
  | [], l, h => by
    rw [annotateAll] at h
    cases Except.ok.inj h
    rfl
  | w :: ws, l, h => by
    rw [annotateAll] at h
    cases ha : annotate w with
    | error e => rw [ha] at h; cases h
    | ok w' =>
      rw [ha] at h
      cases haa : annotateAll ws with
      | error e => rw [haa] at h; cases h
      | ok l' =>
        rw [haa] at h
        cases Except.ok.inj h
        rw [annotateAll, annotate_fix ha, annotateAll_fix haa]

theorem forall₂_mem_right {R : RawWord → RawWord → Prop}
    {ws l : List RawWord} (h : List.Forall₂ R ws l) :
    ∀ {b}, b ∈ l → ∃ a ∈ ws, R a b := by
  induction h with
  | nil => intro b hb; cases hb
  | cons hR _ ih =>
    intro b hb
    rcases List.mem_cons.mp hb with rfl | hb'
    · exact ⟨_, List.mem_cons_self _ _, hR⟩
    · obtain ⟨a, ha, hr⟩ := ih hb'
      exact ⟨a, List.mem_cons_of_mem _ ha, hr⟩

theorem map_wordData_eq {ws l : List RawWord} (h : annotateAll ws = .ok l) :
    l.map wordData = ws.map wordData := by
  have hf := annotateAll_forall₂ h
  clear h
  induction hf with
  | nil => rfl
  | cons hR _ ih =>
    obtain ⟨h1, h2, _⟩ := annotate_ok_shape hR
    simp only [List.map_cons, wordData, h1, h2, ih]

theorem join_map_perm_congr {α β : Type} {f g : α → List β} :
    ∀ {ks : List α}, (∀ k ∈ ks, (f k).Perm (g k)) →
      ((ks.map f).join).Perm ((ks.map g).join)
  | [], _ => List.Perm.refl _
  | k :: ks, h => by
    simp only [List.map_cons, List.join_cons]
    exact (h k (List.mem_cons_self _ _)).append
      (join_map_perm_congr fun x hx => h x (List.mem_cons_of_mem _ hx))

theorem join_filter_key_perm {α : Type} (kf : α → ℤ) :
    ∀ (ks : List ℤ) (l : List α), ks.Nodup → (∀ a ∈ l, kf a ∈ ks) →
      ((ks.map (fun k => l.filter (fun a => kf a == k))).join).Perm l
  | [], l, _, hc => by
    cases l with
    | nil => exact List.Perm.refl _
    | cons a t => exact absurd (hc a (List.mem_cons_self _ _)) (by simp)
  | k :: ks, l, hnd, hc => by
    simp only [List.map_cons, List.join_cons]
    have hknotin : k ∉ ks := (List.nodup_cons.mp hnd).1
    have hks : ∀ k' ∈ ks, l.filter (fun a => kf a == k')
        = (l.filter (fun a => !(kf a == k))).filter (fun a => kf a == k') := by
      intro k' hk'
      rw [List.filter_filter]
      refine List.filter_congr ?_
      intro a _
      by_cases hak : kf a = k'
      · have h1 : (kf a == k') = true := beq_iff_eq.mpr hak
        have h2 : (kf a == k) = false := by
          refine beq_eq_false_iff_ne.mpr ?_
          rw [hak]
          intro hh
          exact hknotin (hh ▸ hk')
        rw [h1, h2]
        rfl
      · have h1 : (kf a == k') = false := beq_eq_false_iff_ne.mpr hak
        rw [h1]
        simp
    rw [List.map_congr_left hks]
    have hcov : ∀ a ∈ l.filter (fun a => !(kf a == k)), kf a ∈ ks := by
      intro a ha
      have hmem := List.mem_filter.mp ha
      have hne : kf a ≠ k := by
        intro hh
        have : (kf a == k) = true := beq_iff_eq.mpr hh
        rw [this] at hmem
        exact absurd hmem.2 (by simp)
      rcases List.mem_cons.mp (hc a hmem.1) with hh | hh
      · exact absurd hh hne
      · exact hh
    have IH := join_filter_key_perm kf ks (l.filter fun a => !(kf a == k))
      (List.nodup_cons.mp hnd).2 hcov
    exact (List.Perm.append_left _ IH).trans (List.filter_append_perm _ l)

/-! ### Claim theorems about the extractor -/

/-- C1 (counterexample): on the line "Monsieur Jean Monsieur Dupont" the
marker "Monsieur" occurs twice—the code splits at every occurrence and keeps
only the segment between the first two, finding the single capitalized token
"Jean" and returning no name, while the claim's "split at the first
occurrence, take the entire remainder" procedure finds "Jean", "Monsieur",
"Dupont" and returns ("Jean", "Monsieur"). -/
theorem extractor_after_segment_counterexample :
    extract_patient_name ["Monsieur Jean Monsieur Dupont"] ["Monsieur", "Madame"]
        = (none, none) ∧
    extract_patient_name_spec ["Monsieur Jean Monsieur Dupont"] ["Monsieur", "Madame"]
        = (some "Jean", some "Monsieur") :=
  ⟨by decide, by decide⟩

/-- C1 (amended): when the marker occurs exactly once in the line, the code
behaves exactly as the claim describes (the "after" segment is the entire
remainder of the line); in general the "after" segment is only the text
between the first and second occurrences.  The first line+marker match
returns immediately, ending the scan. -/
theorem extractor_after_segment_amended :
    (∀ line marker : String, (pySplit line marker).length = 2 →
      tryMarker line marker = tryMarkerSpec line marker) ∧
    (∀ (line : String) (rest markers : List String) (r : String × String),
      scanMarkers line markers = some r →
      extract_patient_name (line :: rest) markers = (some r.1, some r.2)) := by
  constructor
  · intro line marker h
    rcases hp : pySplit line marker with _ | ⟨a, _ | ⟨b, _ | ⟨c, t⟩⟩⟩
    · rw [hp] at h; exact absurd h (by simp)
    · rw [hp] at h; exact absurd h (by simp)
    · rw [tryMarker, tryMarkerSpec, candidate_names, afterFirstOccurrence, hp]
      rfl
    · rw [hp] at h; exact absurd h (by simp)
  · intro line rest markers r h
    obtain ⟨f, l⟩ := r
    rw [extract_patient_name, scanLines, h]

theorem extractor_after_segment_amended_witness :
    tryMarker "Monsieur Jean Dupont" "Monsieur"
        = tryMarkerSpec "Monsieur Jean Dupont" "Monsieur" ∧
    extract_patient_name ["Monsieur Jean Dupont"] ["Monsieur", "Madame"]
        = (some "Jean", some "Dupont") :=
  ⟨extractor_after_segment_amended.1 "Monsieur Jean Dupont" "Monsieur" (by decide),
   extractor_after_segment_amended.2 "Monsieur Jean Dupont" [] ["Monsieur", "Madame"]
     ("Jean", "Dupont") (by decide)⟩

/-- C5: when a line matches both "Monsieur" and "Madame" (each with at least
two capitalized tokens after it), the extractor returns the pair following
"Monsieur", the first marker in the marker-list scan order, regardless of the
markers' textual positions in the line. -/
theorem marker_list_priority (line : String) (rest : List String)
    (f l : String) (p : String × String)
    (h1 : tryMarker line "Monsieur" = some (f, l))
    (h2 : tryMarker line "Madame" = some p) :
    extract_patient_name (line :: rest) ["Monsieur", "Madame"] = (some f, some l) := by
  rw [extract_patient_name, scanLines, scanMarkers, h1]

/-- C5 witness: "Madame" occurs textually first, yet the "Monsieur" pair is
returned because "Monsieur" comes first in the marker list. -/
theorem marker_list_priority_witness :
    extract_patient_name ["Madame Marie Curie et Monsieur Jean Dupont"]
        ["Monsieur", "Madame"] = (some "Jean", some "Dupont") :=
  marker_list_priority "Madame Marie Curie et Monsieur Jean Dupont" []
    "Jean" "Dupont" ("Marie", "Curie") (by decide) (by decide)

/-- C6: when no line/marker combination yields at least two capitalized
tokens after the marker (in particular for the empty list of lines), the
extractor returns the absent pair `(none, none)`; it is a total function, so
no error can be raised. -/
theorem no_name_found_returns_absent (lines markers : List String)
    (h : ∀ line ∈ lines, ∀ marker ∈ markers,
      (candidate_names line marker).length < 2) :
    extract_patient_name lines markers = (none, none) := by
  have hscan : scanLines lines markers = none := by
    induction lines with
    | nil => rfl
    | cons line rest ih =>
      rw [scanLines, scanMarkers_eq_none fun m hm =>
        tryMarker_eq_none_of_lt_two (h line (List.mem_cons_self _ _) m hm)]
      exact ih fun l' hl' m hm => h l' (List.mem_cons_of_mem _ hl') m hm
  rw [extract_patient_name, hscan]

theorem no_name_found_returns_absent_witness :
    extract_patient_name ["Bonjour à tous"] ["Monsieur", "Madame"] = (none, none) :=
  no_name_found_returns_absent ["Bonjour à tous"] ["Monsieur", "Madame"] (by decide)

/-- C7: when the marker occurs in the line but everything after its first
occurrence is whitespace (in particular when the marker ends the line), the
marker is not treated as a match: the scan continues with the remaining
markers of the line, and, when every marker of the line fails, with the
remaining lines. -/
theorem marker_without_following_text_skipped (line marker : String)
    (h1 : 1 < (pySplit line marker).length)
    (h2 : (afterFirstOccurrence line marker).data.all Char.isWhitespace = true) :
    tryMarker line marker = none ∧
    (∀ ms : List String, scanMarkers line (marker :: ms) = scanMarkers line ms) ∧
    (∀ rest markers : List String, (∀ m ∈ markers, tryMarker line m = none) →
      extract_patient_name (line :: rest) markers = extract_patient_name rest markers) := by
  have hnone : tryMarker line marker = none := by
    rcases hp : pySplit line marker with _ | ⟨p0, _ | ⟨p1, rest'⟩⟩
    · rw [hp] at h1; exact absurd h1 (by simp)
    · rw [hp] at h1; exact absurd h1 (by simp)
    have hws : p1.data.all Char.isWhitespace = true := by
      rw [afterFirstOccurrence, hp, List.drop_succ_cons, List.drop_zero,
        String.intercalate] at h2
      obtain ⟨t, ht⟩ := intercalate_go_data_prefix marker rest' p1
      rw [ht, List.all_append, Bool.and_eq_true] at h2
      exact h2.1
    have hcand : candidate_names line marker = [] := by
      rw [candidate_names, hp]
      show ((pyTokens p1).filter _) = []
      rw [pyTokens_eq_nil hws]
      rfl
    rw [tryMarker, hcand]
    simp
  refine ⟨hnone, fun ms => by rw [scanMarkers, hnone], fun rest markers hall => ?_⟩
  rw [extract_patient_name, extract_patient_name, scanLines, scanMarkers_eq_none hall]

theorem marker_without_following_text_skipped_witness :
    tryMarker "Bonjour Monsieur  " "Monsieur" = none ∧
    scanMarkers "Bonjour Monsieur  " ["Monsieur", "Madame"]
        = scanMarkers "Bonjour Monsieur  " ["Madame"] ∧
    extract_patient_name ["Bonjour Monsieur  ", "Madame Marie Curie"]
        ["Monsieur", "Madame"]
        = extract_patient_name ["Madame Marie Curie"] ["Monsieur", "Madame"] := by
  have h := marker_without_following_text_skipped "Bonjour Monsieur  " "Monsieur"
    (by decide) (by decide)
  exact ⟨h.1, h.2.1 ["Madame"], h.2.2 ["Madame Marie Curie"] ["Monsieur", "Madame"]
    (by decide)⟩

/-- C10: the extractor's result is all-or-nothing: either both components are
absent, or both are present, non-empty, and start with an uppercase letter. -/
theorem extractor_all_or_nothing (lines markers : List String) :
    extract_patient_name lines markers = (none, none) ∨
    ∃ f l, extract_patient_name lines markers = (some f, some l) ∧
      f ≠ "" ∧ l ≠ "" ∧ f.front.isUpper = true ∧ l.front.isUpper = true := by
  rw [extract_patient_name]
  cases hs : scanLines lines markers with
  | none => exact Or.inl rfl
  | some r =>
    obtain ⟨f, l⟩ := r
    obtain ⟨line, _, m, _, ht⟩ := scanLines_eq_some hs
    obtain ⟨hf, hl⟩ := tryMarker_eq_some ht
    simp only [Bool.and_eq_true, Bool.not_eq_true'] at hf hl
    refine Or.inr ⟨f, l, rfl, ?_, ?_, hf.2, hl.2⟩
    · intro hemp; rw [hemp] at hf; exact absurd hf.1 (by decide)
    · intro hemp; rw [hemp] at hl; exact absurd hl.1 (by decide)

/-! ### Sample data used by the witnesses -/

/-- Sample word: x span 0.1–0.2, y span 0–0.02 (so `x_avg` 0.15, `y_avg` 0.01,
bucket key 2 at the default tolerance). -/
def wP : RawWord :=
  { text := "P", bbox := some ⟨some (1/10), some (2/10), some 0, some (1/50)⟩ }

/-- Sample word on the same line as `wP`, further right (`x_avg` 0.35). -/
def wQ : RawWord :=
  { text := "Q", bbox := some ⟨some (3/10), some (4/10), some 0, some (1/50)⟩ }

/-- Sample word on a lower line (`y_avg` 0.04, bucket key 8). -/
def wR : RawWord :=
  { text := "R", bbox := some ⟨some 0, some (1/10), some (1/25), some (1/25)⟩ }

/-- The word `wP` with the derived attributes attached. -/
def wPa : RawWord :=
  { text := "P", bbox := some ⟨some (1/10), some (2/10), some 0, some (1/50)⟩,
    y_avg := some (1/100), x_avg := some (3/20) }

/-- The word `wQ` with the derived attributes attached. -/
def wQa : RawWord :=
  { text := "Q", bbox := some ⟨some (3/10), some (4/10), some 0, some (1/50)⟩,
    y_avg := some (1/100), x_avg := some (7/20) }

/-- The word `wR` with the derived attributes attached. -/
def wRa : RawWord :=
  { text := "R", bbox := some ⟨some 0, some (1/10), some (1/25), some (1/25)⟩,
    y_avg := some (1/25), x_avg := some (1/20) }

/-- Sample input: two words of one line (right one first) and one lower word. -/
def sampleWords : List RawWord := [wQ, wR, wP]

/-- The line structure `sort_file` produces for `sampleWords`. -/
def sampleLines : List (List RawWord) := [[wPa, wQa], [wRa]]

/-! ### Claim theorems about the reconstructor -/

/-- C2: on success, the multiset of word boxes across all returned lines is
exactly the input multiset (projected to the caller-supplied fields, since
the words come back with the derived attributes attached), and the returned
words are exactly the annotated input words, none dropped or duplicated. -/
theorem reconstructor_preserves_multiset (words : List RawWord) (t : ℚ)
    (lines : List (List RawWord)) (h : sort_file words t = .ok lines) :
    ((lines.join.map wordData)).Perm (words.map wordData) ∧
    ∃ l, annotateAll words = .ok l ∧ lines.join.Perm l := by
  obtain ⟨l, hl, rfl⟩ := sort_file_ok_elim h
  have hjoin : ((mkLines l t).join).Perm l := by
    rw [mkLines]
    have hnd : (List.insertionSort (· ≤ ·) ((l.map (bucketKey t)).dedup)).Nodup :=
      (List.perm_insertionSort _ _).nodup_iff.mpr (List.nodup_dedup _)
    have hcov : ∀ a ∈ l, bucketKey t a ∈
        List.insertionSort (· ≤ ·) ((l.map (bucketKey t)).dedup) := by
      intro a ha
      rw [(List.perm_insertionSort _ _).mem_iff, List.mem_dedup]
      exact List.mem_map_of_mem _ ha
    refine (join_map_perm_congr ?_).trans
      (join_filter_key_perm (bucketKey t) _ l hnd hcov)
    intro k _
    exact List.perm_insertionSort _ _
  refine ⟨?_, l, hl, hjoin⟩
  have hm := hjoin.map wordData
  rwa [map_wordData_eq hl] at hm

theorem reconstructor_preserves_multiset_witness :
    ((sampleLines.join.map wordData)).Perm (sampleWords.map wordData) :=
  (reconstructor_preserves_multiset sampleWords (1/200) sampleLines
    (by with_unfolding_all rfl)).1

/-- C3: on success, (a) any word of a line has a strictly smaller bucket key
than any word of the next line, (b) within each line the `x_avg` values are
non-decreasing, and (c) the words of a line sharing one `x_avg` value appear
in the same relative order as in the (annotated) input — the in-line sort is
stable. -/
theorem reconstructor_ordering_invariant (words : List RawWord) (t : ℚ)
    (lines : List (List RawWord)) (h : sort_file words t = .ok lines) :
    List.Chain' (fun L1 L2 => ∀ w1 ∈ L1, ∀ w2 ∈ L2,
      bucketKey t w1 < bucketKey t w2) lines ∧
    (∀ line ∈ lines, (line.map xval).Sorted (· ≤ ·)) ∧
    (∃ l, annotateAll words = .ok l ∧ ∀ line ∈ lines, ∀ v : ℚ,
      List.Sublist (line.filter (fun w => decide (xval w = v))) l) := by
  obtain ⟨l, hl, rfl⟩ := sort_file_ok_elim h
  have key_of_mem : ∀ {k : ℤ} {w : RawWord},
      w ∈ List.insertionSort (fun a b => xval a ≤ xval b)
        (l.filter (fun w => bucketKey t w == k)) → bucketKey t w = k := by
    intro k w hw
    exact eq_of_beq (List.mem_filter.mp
      ((List.perm_insertionSort _ _).mem_iff.mp hw)).2
  refine ⟨?_, ?_, l, hl, ?_⟩
  · rw [mkLines, List.chain'_map]
    have hsort : (List.insertionSort (· ≤ ·) ((l.map (bucketKey t)).dedup)).Sorted (· ≤ ·) :=
      List.sorted_insertionSort _ _
    have hnd : (List.insertionSort (· ≤ ·) ((l.map (bucketKey t)).dedup)).Nodup :=
      (List.perm_insertionSort _ _).nodup_iff.mpr (List.nodup_dedup _)
    have hlt : (List.insertionSort (· ≤ ·) ((l.map (bucketKey t)).dedup)).Pairwise (· < ·) :=
      (hsort.and hnd).imp fun hab => lt_of_le_of_ne hab.1 hab.2
    refine (hlt.imp ?_).chain'
    intro k1 k2 hk w1 hw1 w2 hw2
    rw [key_of_mem hw1, key_of_mem hw2]
    exact hk
  · intro line hline
    rw [mkLines] at hline
    obtain ⟨k, -, rfl⟩ := List.mem_map.mp hline
    have hs := List.sorted_insertionSort (fun a b => xval a ≤ xval b)
      (l.filter (fun w => bucketKey t w == k))
    rw [List.Sorted, List.pairwise_map]
    exact hs
  · intro line hline v
    rw [mkLines] at hline
    obtain ⟨k, -, rfl⟩ := List.mem_map.mp hline
    have hpw : ((l.filter (fun w => bucketKey t w == k)).filter
        (fun w => decide (xval w = v))).Pairwise (fun a b => xval a ≤ xval b) := by
      refine List.pairwise_of_forall_mem_list ?_
      intro a ha b hb
      have hav : xval a = v := of_decide_eq_true (List.mem_filter.mp ha).2
      have hbv : xval b = v := of_decide_eq_true (List.mem_filter.mp hb).2
      rw [hav, hbv]
    have hsubsort := List.sublist_insertionSort hpw
      (List.filter_sublist (l.filter (fun w => bucketKey t w == k)))
    have hperm := (List.perm_insertionSort (fun a b => xval a ≤ xval b)
      (l.filter (fun w => bucketKey t w == k))).filter
      (fun w => decide (xval w = v))
    have hsub2 := hsubsort.filter (fun w => decide (xval w = v))
    have hff : (((l.filter (fun w => bucketKey t w == k)).filter
          (fun w => decide (xval w = v))).filter (fun w => decide (xval w = v)))
        = (l.filter (fun w => bucketKey t w == k)).filter
          (fun w => decide (xval w = v)) := by
      rw [List.filter_filter]
      exact List.filter_congr fun a _ => by cases hpa : decide (xval a = v) <;> simp [hpa]
    rw [hff] at hsub2
    have heq := hsub2.eq_of_length hperm.length_eq.symm
    rw [← heq]
    exact (List.filter_sublist _).trans (List.filter_sublist _)

theorem reconstructor_ordering_invariant_witness :
    bucketKey (1/200) wPa < bucketKey (1/200) wRa := by
  have h := (reconstructor_ordering_invariant sampleWords (1/200) sampleLines
    (by with_unfolding_all rfl)).1
  rw [sampleLines] at h
  exact (List.chain'_cons.mp h).1 wPa (List.mem_cons_self _ _) wRa
    (List.mem_cons_self _ _)

/-- C4 (counterexample): the claim says the structural-validation error
identifies which record is malformed, but the code raises a bare
`KeyError('bbox')`: an input whose first record is malformed and an input
whose second record is malformed produce the very same error value, so the
error cannot identify the offending record. -/
theorem reconstructor_error_counterexample :
    sort_file [{ text := "a", bbox := none }] (1/200) = .error "bbox" ∧
    sort_file [{ text := "b", bbox := some ⟨some 0, some 0, some 0, some 0⟩ },
               { text := "a", bbox := none }] (1/200) = .error "bbox" :=
  ⟨by with_unfolding_all rfl, by with_unfolding_all rfl⟩

/-- C4 (amended): if any input word box is malformed, the reconstructor fails
fast on the first malformed record, with a `KeyError` naming the missing
field (but not the record), which propagates to the caller: no word is
skipped and no coordinate is guessed. -/
theorem reconstructor_fails_fast_amended (words : List RawWord) (t : ℚ)
    (w : RawWord)
    (h : words.find? (fun w => (missingField w).isSome) = some w) :
    ∃ e, missingField w = some e ∧ sort_file words t = .error e := by
  induction words with
  | nil => cases h
  | cons w0 ws ih =>
    cases hma : annotate w0 with
    | error e =>
      have hmf : missingField w0 = some e := by rw [missingField, hma]
      simp only [List.find?_cons, hmf, Option.isSome_some] at h
      cases Option.some.inj h
      exact ⟨e, hmf, by rw [sort_file, annotateAll, hma]⟩
    | ok w0' =>
      have hmf : missingField w0 = none := by rw [missingField, hma]
      simp only [List.find?_cons, hmf, Option.isSome_none] at h
      obtain ⟨e, he, hs⟩ := ih h
      refine ⟨e, he, ?_⟩
      have hws : annotateAll ws = .error e := by
        rw [sort_file] at hs
        cases haa : annotateAll ws with
        | error e' => rw [haa] at hs; cases Except.error.inj hs; rfl
        | ok _ => rw [haa] at hs; cases hs
      rw [sort_file, annotateAll, hma, hws]

theorem reconstructor_fails_fast_amended_witness :
    sort_file [{ text := "b", bbox := some ⟨some 0, some 0, some 0, some 0⟩ },
               { text := "a", bbox := none }] (1/200) = .error "bbox" := by
  obtain ⟨e, he, hs⟩ := reconstructor_fails_fast_amended
    [{ text := "b", bbox := some ⟨some 0, some 0, some 0, some 0⟩ },
     { text := "a", bbox := none }] (1/200)
    { text := "a", bbox := none } (by with_unfolding_all rfl)
  have h2 : missingField { text := "a", bbox := none } = some "bbox" := by
    with_unfolding_all rfl
  cases Option.some.inj (h2.symm.trans he)
  exact hs

/-- C8: the reconstructor is deterministic (it is a pure function of its
input, so equal inputs give equal outputs), and applying it a second time to
the same word-box list — which, after the first call's in-place annotation,
is the annotated list — returns the very same line structure. -/
theorem reconstructor_idempotent (words : List RawWord) (t : ℚ)
    (lines : List (List RawWord)) (h : sort_file words t = .ok lines) :
    sort_file words t = .ok lines ∧
    ∃ l, annotateAll words = .ok l ∧ sort_file l t = .ok lines := by
  obtain ⟨l, hl, rfl⟩ := sort_file_ok_elim h
  exact ⟨h, l, hl, by rw [sort_file, annotateAll_fix hl]⟩

theorem reconstructor_idempotent_witness :
    sort_file [wQa, wRa, wPa] (1/200) = .ok sampleLines := by
  obtain ⟨l, hl, hs⟩ := (reconstructor_idempotent sampleWords (1/200) sampleLines
    (by with_unfolding_all rfl)).2
  have h2 : annotateAll sampleWords = .ok [wQa, wRa, wPa] := by
    with_unfolding_all rfl
  cases Except.ok.inj (hl.symm.trans h2)
  exact hs

/-- C9: every word box handed back by the reconstructor is an input word with
its `text` and `bbox` fields unchanged; the only modification is the
attachment of the derived `y_avg` and `x_avg` attributes. -/
theorem reconstructor_frame_condition (words : List RawWord) (t : ℚ)
    (lines : List (List RawWord)) (h : sort_file words t = .ok lines) :
    ∀ w' ∈ lines.join, ∃ w ∈ words, w'.text = w.text ∧ w'.bbox = w.bbox ∧
      w' = { w with y_avg := w'.y_avg, x_avg := w'.x_avg } := by
  obtain ⟨l, hl, rfl⟩ := sort_file_ok_elim h
  intro w' hw'
  have hw'l : w' ∈ l := by
    obtain ⟨line, hline, hmem⟩ := List.mem_join.mp hw'
    rw [mkLines] at hline
    obtain ⟨k, -, rfl⟩ := List.mem_map.mp hline
    exact (List.mem_filter.mp
      ((List.perm_insertionSort _ _).mem_iff.mp hmem)).1
  obtain ⟨w, hw, hann⟩ := forall₂_mem_right (annotateAll_forall₂ hl) hw'l
  obtain ⟨h1, h2, h3⟩ := annotate_ok_shape hann
  exact ⟨w, hw, h1, h2, h3⟩

theorem reconstructor_frame_condition_witness :
    wPa.text = wP.text ∧ wPa.bbox = wP.bbox ∧
      wPa = { wP with y_avg := wPa.y_avg, x_avg := wPa.x_avg } := by
  obtain ⟨w, hw, h1, h2, h3⟩ := reconstructor_frame_condition [wP] (1/200) [[wPa]]
    (by with_unfolding_all rfl) wPa (by simp)
  obtain rfl := List.mem_singleton.mp hw
  exact ⟨h1, h2, h3⟩

end Main
